import Mathlib

/-!
Shallow embedding of `src/Sahagun-abstraction-and-encapsulation.cpp`, a
console payroll record manager.  Pure validators become Lean functions;
interactive prompt loops become recursive functions over a list of input
lines (the operator's keystrokes), returning `none` when input is
exhausted; C++ `double` values are modelled as exact rationals `ℚ`
(every literal the program's lexical rules accept has at most two
fractional digits); C++ `int` is modelled as `Int` with the 32-bit
range check where `stoi` raises `out_of_range`.
-/

/-- C-locale `isspace`: the six whitespace characters `std::stoi` skips. -/
def isSpaceChar (c : Char) : Bool :=
  c = ' ' || c = '\t' || c = '\n' || c = Char.ofNat 11 || c = Char.ofNat 12 || c = '\r'

/-- Numeric value of a base-10 digit string, as `stoi`/`stod` accumulate it. -/
def natOfDigits (ds : List Char) : Nat :=
  ds.foldl (fun n c => 10 * n + (c.toNat - 48)) 0

/-- The signed 32-bit range of the C++ `int`; outside it `stoi` throws
`std::out_of_range`, which `isValidInteger` catches. -/
def intRangeOK (v : Int) : Bool :=
  -2147483648 ≤ v && v ≤ 2147483647

/-- The optional leading sign consumed by `stoi` after whitespace:
returns the sign factor and the remaining characters. -/
def splitSign : List Char → Int × List Char
  | [] => (1, [])
  | c :: r => if c = '+' then (1, r) else if c = '-' then (-1, r) else (1, c :: r)

/-- `bool isValidInteger(const string&, int&)` (lines 8-19): calls
`stoi(input, &pos)` — which skips leading whitespace, consumes an
optional sign and one or more digits, and throws on no digits
(`invalid_argument`) or on overflow of `int` (`out_of_range`), both
caught and turned into `false` — then succeeds iff `pos` equals the
input length (the whole string was consumed).  `some v` models
`true` with `output = v`. -/
def isValidInteger (s : String) : Option Int :=
  let cs := s.data.dropWhile isSpaceChar
  let sgn := (splitSign cs).1
  let cs2 := (splitSign cs).2
  let ds := cs2.takeWhile Char.isDigit
  let rest := cs2.dropWhile Char.isDigit
  if ds.isEmpty then none
  else
    let v : Int := sgn * (natOfDigits ds : Int)
    if ¬ intRangeOK v then none
    else if rest.isEmpty then some v else none

/-- `bool isValidMenuNumber(const string&, int&, int, int)` (lines 22-28):
rejects any input containing a space, then requires `isValidInteger`
and `min ≤ output ≤ max`. -/
def isValidMenuNumber (input : String) (min max : Int) : Option Int :=
  if input.data.contains ' ' then none
  else
    match isValidInteger input with
    | some v => if min ≤ v ∧ v ≤ max then some v else none
    | none => none

/-- `bool isValidDecimal(const string&, double&)` (lines 31-38): matches
the regex `^\d+(\.\d{1,2})?$` and on a match converts with `stod`.
The value is modelled exactly in `ℚ`. -/
def isValidDecimal (s : String) : Option ℚ :=
  let ds := s.data.takeWhile Char.isDigit
  let rest := s.data.dropWhile Char.isDigit
  if ds.isEmpty then none
  else
    match rest with
    | [] => some (natOfDigits ds : ℚ)
    | '.' :: fs =>
      if fs ≠ [] ∧ fs.length ≤ 2 ∧ fs.all Char.isDigit then
        some ((natOfDigits ds : ℚ) + (natOfDigits fs : ℚ) / 10 ^ fs.length)
      else none
    | _ => none

/-- `bool isValidID(const string&)` (lines 41-50): no space character and
matches `^[a-zA-Z0-9]+$`. -/
def isValidID (id : String) : Bool :=
  if id.data.contains ' ' then false
  else !id.data.isEmpty && id.data.all (fun c => c.isAlpha || c.isDigit)

/-- The three `Employee` variants (classes `FullTimeEmployee`,
`PartTimeEmployee`, `ContractualEmployee`), each carrying the base
fields `id`, `name` plus its own compensation fields.  No variant
stores a computed pay. -/
inductive Employee
  | fullTime (id name : String) (salary : ℚ)
  | partTime (id name : String) (hourlyWage hoursWorked : ℚ)
  | contractual (id name : String) (paymentPerProject : ℚ) (projectsCompleted : Int)
deriving DecidableEq

namespace Employee

/-- `Employee::getId` (line 70). -/
def getId : Employee → String
  | fullTime id _ _ => id
  | partTime id _ _ _ => id
  | contractual id _ _ _ => id

/-- `Employee::getName` (line 74). -/
def getName : Employee → String
  | fullTime _ name _ => name
  | partTime _ name _ _ => name
  | contractual _ name _ _ => name

/-- The virtual `calculateSalary` overrides (lines 90, 113, 138). -/
def calculateSalary : Employee → ℚ
  | fullTime _ _ salary => salary
  | partTime _ _ wage hours => wage * hours
  | contractual _ _ payment projects => payment * (projects : ℚ)

end Employee

/-- String form of a numeric value in the report.  The C++ code prints
`double`/`int` via `operator<<`; the exact digit rendering is immaterial
to every claim, so the embedding renders the exact rational value. -/
def qStr (q : ℚ) : String := toString q

/-- The virtual `displayPayrollReport` overrides (lines 95, 118, 143):
the lines each variant prints.  The `Total Salary` lines call
`calculateSalary()` at render time, exactly as the source does. -/
def Employee.displayLines : Employee → List String
  | .fullTime id name salary =>
      ["Employee: " ++ name ++ " (ID: " ++ id ++ ")",
       "Fixed Monthly Salary: $" ++ qStr salary]
  | .partTime id name wage hours =>
      ["Employee: " ++ name ++ " (ID: " ++ id ++ ")",
       "Hourly Wage: $" ++ qStr wage,
       "Hours Worked: " ++ qStr hours,
       "Total Salary: $" ++ qStr (Employee.calculateSalary (.partTime id name wage hours))]
  | .contractual id name payment projects =>
      ["Employee: " ++ name ++ " (ID: " ++ id ++ ")",
       "Contract Payment Per Project: $" ++ qStr payment,
       "Projects Completed: " ++ toString projects,
       "Total Salary: $" ++ qStr (Employee.calculateSalary (.contractual id name payment projects))]

namespace PayrollSystem

/-- `PayrollSystem::isIdUnique` (lines 157-160): `none_of` the stored
employees has the given id. -/
def isIdUnique (employees : List Employee) (id : String) : Bool :=
  employees.all (fun emp => !(emp.getId == id))

/-- `PayrollSystem::getEmployeeId` (lines 163-182): reads lines until one
is non-empty, passes `isValidID`, and is unique; returns that line and
the unconsumed input.  `none` models input exhausted (the C++ loop
would block or spin forever). -/
def getEmployeeId (employees : List Employee) : List String → Option (String × List String)
  | [] => none
  | id :: rest =>
    if id.isEmpty then getEmployeeId employees rest
    else if ¬ isValidID id then getEmployeeId employees rest
    else if ¬ isIdUnique employees id then getEmployeeId employees rest
    else some (id, rest)

/-- `PayrollSystem::getEmployeeName` (lines 185-200): reads lines until
one is non-empty. -/
def getEmployeeName : List String → Option (String × List String)
  | [] => none
  | name :: rest =>
    if ¬ name.isEmpty then some (name, rest) else getEmployeeName rest

/-- `PayrollSystem::getValidDecimalInput` (lines 203-223): reads lines
until `isValidDecimal` succeeds and the value is `> 0`. -/
def getValidDecimalInput : List String → Option (ℚ × List String)
  | [] => none
  | input :: rest =>
    match isValidDecimal input with
    | some value => if value > 0 then some (value, rest) else getValidDecimalInput rest
    | none => getValidDecimalInput rest

/-- `PayrollSystem::getValidNumericInput` (lines 226-246): reads lines
until `isValidInteger` succeeds and the value is `≥ 0`. -/
def getValidNumericInput : List String → Option (Int × List String)
  | [] => none
  | input :: rest =>
    match isValidInteger input with
    | some value => if value ≥ 0 then some (value, rest) else getValidNumericInput rest
    | none => getValidNumericInput rest

/-- `PayrollSystem::addFullTimeEmployee` (lines 257-264): id, name,
monthly salary, then append. -/
def addFullTimeEmployee (employees : List Employee) (inputs : List String) :
    Option (List Employee × List String) :=
  match getEmployeeId employees inputs with
  | none => none
  | some (id, r1) =>
    match getEmployeeName r1 with
    | none => none
    | some (name, r2) =>
      match getValidDecimalInput r2 with
      | none => none
      | some (salary, r3) => some (employees ++ [.fullTime id name salary], r3)

/-- `PayrollSystem::addPartTimeEmployee` (lines 267-275): id, name,
hourly wage, hours worked, then append. -/
def addPartTimeEmployee (employees : List Employee) (inputs : List String) :
    Option (List Employee × List String) :=
  match getEmployeeId employees inputs with
  | none => none
  | some (id, r1) =>
    match getEmployeeName r1 with
    | none => none
    | some (name, r2) =>
      match getValidDecimalInput r2 with
      | none => none
      | some (wage, r3) =>
        match getValidDecimalInput r3 with
        | none => none
        | some (hours, r4) => some (employees ++ [.partTime id name wage hours], r4)

/-- `PayrollSystem::addContractualEmployee` (lines 278-286): id, name,
payment per project, number of projects, then append. -/
def addContractualEmployee (employees : List Employee) (inputs : List String) :
    Option (List Employee × List String) :=
  match getEmployeeId employees inputs with
  | none => none
  | some (id, r1) =>
    match getEmployeeName r1 with
    | none => none
    | some (name, r2) =>
      match getValidDecimalInput r2 with
      | none => none
      | some (payment, r3) =>
        match getValidNumericInput r3 with
        | none => none
        | some (projects, r4) => some (employees ++ [.contractual id name payment projects], r4)

/-- `PayrollSystem::displayPayrollReport` (lines 289-301): the lines the
report prints — the single empty notice, or a header followed by each
employee's block (its lines then the blank line of `cout << endl`). -/
def displayPayrollReport (employees : List Employee) : List String :=
  if employees.isEmpty then ["No employees to display."]
  else "------ Employee Payroll Report ------" ::
    employees.flatMap (fun emp => emp.displayLines ++ [""])

/-- The report method is `const`: it returns the state untouched next to
its output, modelling that rendering mutates nothing. -/
def displayPayrollReportSt (employees : List Employee) : List Employee × List String :=
  (employees, displayPayrollReport employees)

end PayrollSystem

namespace PayrollSystem

/-- The four registry-touching menu operations the driver can dispatch
(option 5 only prints the goodbye message). -/
inductive MenuOp
  | addFT
  | addPT
  | addCT
  | report

/-- One dispatched operation: the three add operations consume input;
displaying the report leaves state and input untouched. -/
def applyOp (op : MenuOp) (employees : List Employee) (inputs : List String) :
    Option (List Employee × List String) :=
  match op with
  | .addFT => addFullTimeEmployee employees inputs
  | .addPT => addPartTimeEmployee employees inputs
  | .addCT => addContractualEmployee employees inputs
  | .report => some ((displayPayrollReportSt employees).1, inputs)

/-- Runs a sequence of menu operations against the registry, threading
the remaining operator input. -/
def runOps : List MenuOp → List Employee → List String → Option (List Employee × List String)
  | [], employees, inputs => some (employees, inputs)
  | op :: ops, employees, inputs =>
    match applyOp op employees inputs with
    | none => none
    | some (employees2, rest) => runOps ops employees2 rest

end PayrollSystem

/-- `main` (lines 304-347): reads a menu choice line; if
`isValidMenuNumber(choice, option, 1, 5)` succeeds it dispatches on
`option` (case 5 only prints the goodbye message), otherwise it prints
the invalid-choice diagnostic; either way the loop repeats `while
(choice != "5")` — a comparison of the RAW STRING against `"5"`.
`some s` models the loop exiting normally with final registry `s`;
`none` models exhausted input or fuel (the C++ program would be
blocked reading, or still looping). -/
def mainLoop : Nat → List Employee → List String → Option (List Employee)
  | 0, _, _ => none
  | _ + 1, _, [] => none
  | fuel + 1, employees, choice :: rest =>
    match isValidMenuNumber choice 1 5 with
    | some option =>
      let step : Option (List Employee × List String) :=
        if option = 1 then PayrollSystem.addFullTimeEmployee employees rest
        else if option = 2 then PayrollSystem.addPartTimeEmployee employees rest
        else if option = 3 then PayrollSystem.addContractualEmployee employees rest
        else if option = 4 then some ((PayrollSystem.displayPayrollReportSt employees).1, rest)
        else some (employees, rest)
      match step with
      | none => none
      | some (employees2, rest2) =>
        if choice = "5" then some employees2 else mainLoop fuel employees2 rest2
    | none =>
      if choice = "5" then some employees else mainLoop fuel employees rest

/-!
Spec-side characterisations.  These follow the specification's words,
to be compared with the definitions above, which follow the source.
-/

/-- Spec §8: "`parseInteger(T)` succeeds iff T is exactly an optional
sign followed by one or more digits with no other characters". -/
def specIntShape (s : String) : Bool :=
  let cs := match s.data with
    | '+' :: r => r
    | '-' :: r => r
    | cs => cs
  !cs.isEmpty && cs.all Char.isDigit

/-- The sign factor denoted by an optional-sign prefix. -/
def signFactor (sgn : List Char) : Int :=
  if sgn = ['-'] then -1 else 1

/-- The amended shape for `isValidInteger`: optional leading (C-locale)
whitespace, then an optional sign, then one or more base-10 digits with
no trailing characters, and the denoted value within the signed 32-bit
`int` range. -/
def amendedIntShape (s : String) : Prop :=
  ∃ ws sgn ds : List Char,
    (∀ c ∈ ws, isSpaceChar c = true) ∧
    (sgn = [] ∨ sgn = ['+'] ∨ sgn = ['-']) ∧
    ds ≠ [] ∧ (∀ c ∈ ds, c.isDigit = true) ∧
    s.data = ws ++ sgn ++ ds ∧
    intRangeOK (signFactor sgn * (natOfDigits ds : Int)) = true

/-- Spec §4.1: `parseDecimal` succeeds iff the text is "one or more
digits, optionally followed by a decimal point and one or two digits"
(no sign, no exponent, no separators). -/
def specDecimalShape (s : String) : Prop :=
  (∃ ds : List Char, ds ≠ [] ∧ (∀ c ∈ ds, c.isDigit = true) ∧ s.data = ds) ∨
  (∃ ds fs : List Char, ds ≠ [] ∧ (∀ c ∈ ds, c.isDigit = true) ∧
    fs ≠ [] ∧ fs.length ≤ 2 ∧ (∀ c ∈ fs, c.isDigit = true) ∧
    s.data = ds ++ '.' :: fs)

/-- The creation-time field facts every stored record satisfies: all
decimal fields strictly positive (they come from
`getValidDecimalInput`) and the project count non-negative (it comes
from `getValidNumericInput`). -/
def fieldsOK : Employee → Prop
  | .fullTime _ _ salary => 0 < salary
  | .partTime _ _ wage hours => 0 < wage ∧ 0 < hours
  | .contractual _ _ payment projects => 0 < payment ∧ 0 ≤ projects

/-- The registry invariant: pairwise-distinct ids and creation-time
field facts for every record. -/
def GoodState (employees : List Employee) : Prop :=
  (employees.map Employee.getId).Pairwise (· ≠ ·) ∧ ∀ e ∈ employees, fieldsOK e

/-!  Shared helper lemmas. -/

theorem takeWhile_split (p : Char → Bool) (ds rest : List Char)
    (h1 : ∀ c ∈ ds, p c = true)
    (h2 : ∀ c t, rest = c :: t → p c = false) :
    (ds ++ rest).takeWhile p = ds ∧ (ds ++ rest).dropWhile p = rest := by
  induction ds with
  | nil =>
    simp only [List.nil_append]
    cases rest with
    | nil => simp
    | cons c t =>
      have hc : p c = false := h2 c t rfl
      constructor
      · exact List.takeWhile_cons_of_neg (by simp [hc])
      · exact List.dropWhile_cons_of_neg (by simp [hc])
  | cons d ds ih =>
    have hd : p d = true := h1 d (List.mem_cons_self d ds)
    have ih2 := ih (fun c hc => h1 c (List.mem_cons_of_mem d hc))
    simp only [List.cons_append]
    constructor
    · rw [List.takeWhile_cons_of_pos hd, ih2.1]
    · rw [List.dropWhile_cons_of_pos hd, ih2.2]

theorem head_dropWhile_false (p : Char → Bool) (l : List Char) (c : Char) (t : List Char)
    (h : l.dropWhile p = c :: t) : p c = false := by
  have := List.head?_dropWhile_not p l
  rw [h] at this
  exact this

theorem mem_of_takeWhile_eq (p : Char → Bool) (l ds : List Char)
    (h : l.takeWhile p = ds) : ∀ c ∈ ds, p c = true := by
  intro c hc
  exact List.mem_takeWhile_imp (h ▸ hc)

namespace PayrollSystem

theorem getEmployeeId_post (employees : List Employee) :
    ∀ inputs id rest, getEmployeeId employees inputs = some (id, rest) →
      ¬ id.isEmpty ∧ isValidID id = true ∧ isIdUnique employees id = true := by
  intro inputs
  induction inputs with
  | nil => intro id rest h; simp [getEmployeeId] at h
  | cons t ts ih =>
    intro id rest h
    by_cases h1 : t.isEmpty
    · rw [getEmployeeId, if_pos h1] at h
      exact ih id rest h
    · by_cases h2 : isValidID t = true
      · by_cases h3 : isIdUnique employees t = true
        · rw [getEmployeeId, if_neg h1, if_neg (by simp [h2]), if_neg (by simp [h3])] at h
          obtain ⟨rfl, rfl⟩ : t = id ∧ ts = rest := by
            simpa using h
          exact ⟨h1, h2, h3⟩
        · rw [getEmployeeId, if_neg h1, if_neg (by simp [h2]), if_pos (by simp [h3])] at h
          exact ih id rest h
      · rw [getEmployeeId, if_neg h1, if_pos (by simp [h2])] at h
        exact ih id rest h

theorem getValidDecimalInput_post :
    ∀ inputs value rest, getValidDecimalInput inputs = some (value, rest) →
      0 < value ∧ ∃ t ∈ inputs, isValidDecimal t = some value := by
  intro inputs
  induction inputs with
  | nil => intro v rest h; simp [getValidDecimalInput] at h
  | cons t ts ih =>
    intro v rest h
    rw [getValidDecimalInput] at h
    split at h
    next q hd =>
      split at h
      next hq =>
        obtain ⟨rfl, rfl⟩ : q = v ∧ ts = rest := by simpa using h
        exact ⟨hq, t, List.mem_cons_self t ts, hd⟩
      next hq =>
        obtain ⟨hv, w, hw, hww⟩ := ih v rest h
        exact ⟨hv, w, List.mem_cons_of_mem t hw, hww⟩
    next hd =>
      obtain ⟨hv, w, hw, hww⟩ := ih v rest h
      exact ⟨hv, w, List.mem_cons_of_mem t hw, hww⟩

theorem getValidNumericInput_post :
    ∀ inputs value rest, getValidNumericInput inputs = some (value, rest) →
      0 ≤ value ∧ ∃ t ∈ inputs, isValidInteger t = some value := by
  intro inputs
  induction inputs with
  | nil => intro v rest h; simp [getValidNumericInput] at h
  | cons t ts ih =>
    intro v rest h
    rw [getValidNumericInput] at h
    split at h
    next n hd =>
      split at h
      next hn =>
        obtain ⟨rfl, rfl⟩ : n = v ∧ ts = rest := by simpa using h
        exact ⟨hn, t, List.mem_cons_self t ts, hd⟩
      next hn =>
        obtain ⟨hv, w, hw, hww⟩ := ih v rest h
        exact ⟨hv, w, List.mem_cons_of_mem t hw, hww⟩
    next hd =>
      obtain ⟨hv, w, hw, hww⟩ := ih v rest h
      exact ⟨hv, w, List.mem_cons_of_mem t hw, hww⟩

end PayrollSystem

namespace PayrollSystem

theorem isIdUnique_iff (employees : List Employee) (id : String) :
    isIdUnique employees id = true ↔ ∀ e ∈ employees, e.getId ≠ id := by
  simp [isIdUnique]

theorem goodState_append (employees : List Employee) (e : Employee)
    (hg : GoodState employees) (hu : isIdUnique employees e.getId = true)
    (hf : fieldsOK e) : GoodState (employees ++ [e]) := by
  obtain ⟨hp, hfs⟩ := hg
  constructor
  · rw [List.map_append, List.pairwise_append]
    refine ⟨hp, by simp, ?_⟩
    intro a ha b hb
    simp only [List.map_cons, List.map_nil, List.mem_singleton] at hb
    subst hb
    simp only [List.mem_map] at ha
    obtain ⟨e2, he2, rfl⟩ := ha
    exact (isIdUnique_iff employees e.getId).1 hu e2 he2
  · intro e2 he2
    rcases List.mem_append.1 he2 with h2 | h2
    · exact hfs e2 h2
    · simp only [List.mem_singleton] at h2
      subst h2
      exact hf

theorem addFullTimeEmployee_good (employees : List Employee) (inputs : List String)
    (employees2 : List Employee) (rest : List String)
    (hg : GoodState employees)
    (h : addFullTimeEmployee employees inputs = some (employees2, rest)) :
    GoodState employees2 := by
  rw [addFullTimeEmployee] at h
  split at h
  · exact absurd h (by simp)
  next id r1 hid =>
    split at h
    · exact absurd h (by simp)
    next name r2 hname =>
      split at h
      · exact absurd h (by simp)
      next salary r3 hsal =>
        obtain ⟨rfl, rfl⟩ : employees ++ [.fullTime id name salary] = employees2 ∧ r3 = rest := by
          simpa using h
        obtain ⟨-, -, hu⟩ := getEmployeeId_post employees inputs id r1 hid
        obtain ⟨hpos, -⟩ := getValidDecimalInput_post r2 salary r3 hsal
        exact goodState_append employees _ hg hu hpos

theorem addPartTimeEmployee_good (employees : List Employee) (inputs : List String)
    (employees2 : List Employee) (rest : List String)
    (hg : GoodState employees)
    (h : addPartTimeEmployee employees inputs = some (employees2, rest)) :
    GoodState employees2 := by
  rw [addPartTimeEmployee] at h
  split at h
  · exact absurd h (by simp)
  next id r1 hid =>
    split at h
    · exact absurd h (by simp)
    next name r2 hname =>
      split at h
      · exact absurd h (by simp)
      next wage r3 hwage =>
        split at h
        · exact absurd h (by simp)
        next hours r4 hhours =>
          obtain ⟨rfl, rfl⟩ :
              employees ++ [.partTime id name wage hours] = employees2 ∧ r4 = rest := by
            simpa using h
          obtain ⟨-, -, hu⟩ := getEmployeeId_post employees inputs id r1 hid
          obtain ⟨hw, -⟩ := getValidDecimalInput_post r2 wage r3 hwage
          obtain ⟨hh, -⟩ := getValidDecimalInput_post r3 hours r4 hhours
          exact goodState_append employees _ hg hu ⟨hw, hh⟩

theorem addContractualEmployee_good (employees : List Employee) (inputs : List String)
    (employees2 : List Employee) (rest : List String)
    (hg : GoodState employees)
    (h : addContractualEmployee employees inputs = some (employees2, rest)) :
    GoodState employees2 := by
  rw [addContractualEmployee] at h
  split at h
  · exact absurd h (by simp)
  next id r1 hid =>
    split at h
    · exact absurd h (by simp)
    next name r2 hname =>
      split at h
      · exact absurd h (by simp)
      next payment r3 hpay =>
        split at h
        · exact absurd h (by simp)
        next projects r4 hproj =>
          obtain ⟨rfl, rfl⟩ :
              employees ++ [.contractual id name payment projects] = employees2 ∧ r4 = rest := by
            simpa using h
          obtain ⟨-, -, hu⟩ := getEmployeeId_post employees inputs id r1 hid
          obtain ⟨hp, -⟩ := getValidDecimalInput_post r2 payment r3 hpay
          obtain ⟨hn, -⟩ := getValidNumericInput_post r3 projects r4 hproj
          exact goodState_append employees _ hg hu ⟨hp, hn⟩

theorem applyOp_good (op : MenuOp) (employees : List Employee) (inputs : List String)
    (employees2 : List Employee) (rest : List String)
    (hg : GoodState employees)
    (h : applyOp op employees inputs = some (employees2, rest)) :
    GoodState employees2 := by
  cases op with
  | addFT => exact addFullTimeEmployee_good employees inputs employees2 rest hg h
  | addPT => exact addPartTimeEmployee_good employees inputs employees2 rest hg h
  | addCT => exact addContractualEmployee_good employees inputs employees2 rest hg h
  | report =>
    obtain ⟨rfl, rfl⟩ : employees = employees2 ∧ inputs = rest := by
      simpa [applyOp, displayPayrollReportSt] using h
    exact hg

theorem runOps_good :
    ∀ ops employees inputs employees2 rest, GoodState employees →
      runOps ops employees inputs = some (employees2, rest) → GoodState employees2 := by
  intro ops
  induction ops with
  | nil =>
    intro employees inputs employees2 rest hg h
    obtain ⟨rfl, rfl⟩ : employees = employees2 ∧ inputs = rest := by simpa [runOps] using h
    exact hg
  | cons op ops ih =>
    intro employees inputs employees2 rest hg h
    rw [runOps] at h
    split at h
    · exact absurd h (by simp)
    next emp3 rest3 hstep =>
      exact ih emp3 rest3 employees2 rest (applyOp_good op employees inputs emp3 rest3 hg hstep) h

theorem goodState_nil : GoodState [] := ⟨List.Pairwise.nil, by simp⟩

end PayrollSystem

/-!  Claim theorems. -/

/-- C2: every variant's `calculateSalary` is exactly the spec's pay
formula — FullTime pay is the stored monthly salary, PartTime pay is
hourlyWage × hoursWorked (10.5 × 8 = 84), Contractual pay is
paymentPerProject × projectsCompleted (200 × 3 = 600). -/
theorem claim_C2_salary_formulas :
    (∀ id name salary, Employee.calculateSalary (.fullTime id name salary) = salary) ∧
    (∀ id name wage hours, Employee.calculateSalary (.partTime id name wage hours) = wage * hours) ∧
    (∀ id name payment projects,
      Employee.calculateSalary (.contractual id name payment projects) = payment * (projects : ℚ)) ∧
    Employee.calculateSalary (.partTime "E2" "Bo" 10.5 8) = 84 ∧
    Employee.calculateSalary (.contractual "E3" "Cy" 200 3) = 600 := by
  refine ⟨fun _ _ _ => rfl, fun _ _ _ _ => rfl, fun _ _ _ _ => rfl, ?_, ?_⟩
  · show (10.5 : ℚ) * 8 = 84
    norm_num
  · show (200 : ℚ) * ((3 : Int) : ℚ) = 600
    norm_num

/-- C7: the payroll report on an empty registry is the single
"no employees" notice (no header, no blocks); on a non-empty registry it
is the header line followed by one block per record in insertion order
(each block being the record's own lines then a blank line). -/
theorem claim_C7_report_layout :
    PayrollSystem.displayPayrollReport [] = ["No employees to display."] ∧
    ∀ employees : List Employee, employees ≠ [] →
      PayrollSystem.displayPayrollReport employees =
        "------ Employee Payroll Report ------" ::
          employees.flatMap (fun emp => emp.displayLines ++ [""]) := by
  constructor
  · rfl
  · intro employees h
    rw [PayrollSystem.displayPayrollReport, if_neg (by simpa using h)]

theorem claim_C7_witness :
    PayrollSystem.displayPayrollReport [.fullTime "E1" "Ann" 1000] =
      "------ Employee Payroll Report ------" ::
        ([Employee.fullTime "E1" "Ann" 1000].flatMap (fun emp => emp.displayLines ++ [""])) :=
  claim_C7_report_layout.2 [.fullTime "E1" "Ann" 1000] (by simp)

/-- C8: rendering the report leaves the registry (and so every record in
it) unchanged, and every pay value a block shows is the string of the
record's own `calculateSalary` applied to its stored fields at render
time — the `Employee` type stores no pay value to show instead. -/
theorem claim_C8_render_frame :
    (∀ employees : List Employee, (PayrollSystem.displayPayrollReportSt employees).1 = employees) ∧
    (∀ id name salary,
      (Employee.displayLines (.fullTime id name salary)).getLast? =
        some ("Fixed Monthly Salary: $" ++
          qStr (Employee.calculateSalary (.fullTime id name salary)))) ∧
    (∀ id name wage hours,
      (Employee.displayLines (.partTime id name wage hours)).getLast? =
        some ("Total Salary: $" ++
          qStr (Employee.calculateSalary (.partTime id name wage hours)))) ∧
    (∀ id name payment projects,
      (Employee.displayLines (.contractual id name payment projects)).getLast? =
        some ("Total Salary: $" ++
          qStr (Employee.calculateSalary (.contractual id name payment projects)))) :=
  ⟨fun _ => rfl, fun _ _ _ => rfl, fun _ _ _ _ => rfl, fun _ _ _ _ => rfl⟩

/-- C1: `isIdUnique id` is true iff no stored record has that id;
`getEmployeeId` only ever returns a non-empty id that passes
`isValidID` and is unique in the registry at that moment; and after any
sequence of menu operations starting from the empty registry, the
stored ids are pairwise distinct. -/
theorem claim_C1_unique_ids :
    (∀ employees id,
      PayrollSystem.isIdUnique employees id = true ↔ ∀ e ∈ employees, e.getId ≠ id) ∧
    (∀ employees inputs id rest,
      PayrollSystem.getEmployeeId employees inputs = some (id, rest) →
        id ≠ "" ∧ isValidID id = true ∧ PayrollSystem.isIdUnique employees id = true) ∧
    (∀ ops inputs employees rest,
      PayrollSystem.runOps ops [] inputs = some (employees, rest) →
        (employees.map Employee.getId).Pairwise (· ≠ ·)) := by
  refine ⟨PayrollSystem.isIdUnique_iff, ?_, ?_⟩
  · intro employees inputs id rest h
    obtain ⟨h1, h2, h3⟩ := PayrollSystem.getEmployeeId_post employees inputs id rest h
    refine ⟨?_, h2, h3⟩
    intro hempty
    exact h1 (by rw [hempty]; rfl)
  · intro ops inputs employees rest h
    exact (PayrollSystem.runOps_good ops [] inputs employees rest PayrollSystem.goodState_nil h).1

theorem claim_C1_witness :
    ∃ employees rest,
      PayrollSystem.runOps [PayrollSystem.MenuOp.addFT, PayrollSystem.MenuOp.addPT] []
        ["E1", "Ann", "1000", "E1", "E2", "Bo", "10", "8"] = some (employees, rest) ∧
      (employees.map Employee.getId).Pairwise (· ≠ ·) :=
  ⟨_, _, rfl,
    claim_C1_unique_ids.2.2 [PayrollSystem.MenuOp.addFT, PayrollSystem.MenuOp.addPT]
      ["E1", "Ann", "1000", "E1", "E2", "Bo", "10", "8"] _ _ rfl⟩

/-- C6: `getValidDecimalInput` returns only values on which
`isValidDecimal` succeeded for some entered line and which are strictly
positive; hence in every registry reachable by menu operations from the
empty registry, every FullTime monthly salary, PartTime hourly wage and
hours worked, and Contractual payment per project is strictly
positive. -/
theorem claim_C6_positive_decimals :
    (∀ inputs value rest,
      PayrollSystem.getValidDecimalInput inputs = some (value, rest) →
        0 < value ∧ ∃ t ∈ inputs, isValidDecimal t = some value) ∧
    (∀ ops inputs employees rest,
      PayrollSystem.runOps ops [] inputs = some (employees, rest) →
        ∀ e ∈ employees,
          (∀ id name salary, e = .fullTime id name salary → 0 < salary) ∧
          (∀ id name wage hours, e = .partTime id name wage hours → 0 < wage ∧ 0 < hours) ∧
          (∀ id name payment projects, e = .contractual id name payment projects → 0 < payment)) := by
  refine ⟨PayrollSystem.getValidDecimalInput_post, ?_⟩
  intro ops inputs employees rest h e he
  have hf := (PayrollSystem.runOps_good ops [] inputs employees rest
    PayrollSystem.goodState_nil h).2 e he
  refine ⟨?_, ?_, ?_⟩
  · intro id name salary he2
    rw [he2] at hf
    exact hf
  · intro id name wage hours he2
    rw [he2] at hf
    exact hf
  · intro id name payment projects he2
    rw [he2] at hf
    exact hf.1

theorem claim_C6_witness :
    (0 : ℚ) < 12 ∧ ∃ t ∈ ["x", "12"], isValidDecimal t = some 12 :=
  claim_C6_positive_decimals.1 ["x", "12"] 12 [] rfl

/-- C10: `getValidNumericInput` accepts zero (so a Contractual record
with zero completed projects is storable), and in every registry
reachable by menu operations from the empty registry a Contractual
record's pay is non-negative and zero exactly when its project count is
zero, while FullTime and PartTime pays are strictly positive — so
Contractual is the only variant whose pay can be zero. -/
theorem claim_C10_zero_projects :
    (∀ inputs value rest,
      PayrollSystem.getValidNumericInput inputs = some (value, rest) → 0 ≤ value) ∧
    (∃ payment rest, PayrollSystem.addContractualEmployee [] ["E3", "Cy", "200", "0"] =
      some ([.contractual "E3" "Cy" payment 0], rest)) ∧
    (∀ ops inputs employees rest,
      PayrollSystem.runOps ops [] inputs = some (employees, rest) →
        ∀ e ∈ employees,
          (∀ id name payment projects, e = .contractual id name payment projects →
            0 ≤ e.calculateSalary ∧ (e.calculateSalary = 0 ↔ projects = 0)) ∧
          (∀ id name salary, e = .fullTime id name salary → 0 < e.calculateSalary) ∧
          (∀ id name wage hours, e = .partTime id name wage hours → 0 < e.calculateSalary)) := by
  refine ⟨fun inputs value rest h => (PayrollSystem.getValidNumericInput_post inputs value rest h).1,
    ⟨_, _, rfl⟩, ?_⟩
  intro ops inputs employees rest h e he
  have hf := (PayrollSystem.runOps_good ops [] inputs employees rest
    PayrollSystem.goodState_nil h).2 e he
  refine ⟨?_, ?_, ?_⟩
  · intro id name payment projects he2
    subst he2
    obtain ⟨hp, hn⟩ := hf
    constructor
    · exact mul_nonneg (le_of_lt hp) (by exact_mod_cast hn)
    · rw [Employee.calculateSalary]
      constructor
      · intro hz
        rcases mul_eq_zero.1 hz with hz2 | hz2
        · exact absurd hz2 (ne_of_gt hp)
        · exact_mod_cast hz2
      · intro hz
        rw [hz]
        simp
  · intro id name salary he2
    subst he2
    exact hf
  · intro id name wage hours he2
    subst he2
    exact mul_pos hf.1 hf.2

theorem claim_C10_witness :
    ∃ employees rest,
      PayrollSystem.runOps [PayrollSystem.MenuOp.addCT] [] ["E3", "Cy", "200", "0"] =
        some (employees, rest) ∧
      ∀ e ∈ employees,
        (∀ id name payment projects, e = .contractual id name payment projects →
          0 ≤ e.calculateSalary ∧ (e.calculateSalary = 0 ↔ projects = 0)) ∧
        (∀ id name salary, e = .fullTime id name salary → 0 < e.calculateSalary) ∧
        (∀ id name wage hours, e = .partTime id name wage hours → 0 < e.calculateSalary) :=
  ⟨_, _, rfl,
    claim_C10_zero_projects.2.2 [PayrollSystem.MenuOp.addCT] ["E3", "Cy", "200", "0"] _ _ rfl⟩

/-!  Character classification lemmas. -/

theorem digit_not_space (c : Char) (h : c.isDigit = true) : isSpaceChar c = false := by
  cases hsp : isSpaceChar c
  · rfl
  · exfalso
    simp only [isSpaceChar, Bool.or_eq_true, decide_eq_true_eq] at hsp
    rcases hsp with ((((h1 | h1) | h1) | h1) | h1) | h1 <;> subst h1 <;>
      exact absurd h (by decide)

theorem digit_ne_plus (c : Char) (h : c.isDigit = true) : c ≠ '+' := by
  intro h2
  subst h2
  exact absurd h (by decide)

theorem digit_ne_minus (c : Char) (h : c.isDigit = true) : c ≠ '-' := by
  intro h2
  subst h2
  exact absurd h (by decide)

theorem digit_ne_dot (c : Char) (h : c.isDigit = true) : c ≠ '.' := by
  intro h2
  subst h2
  exact absurd h (by decide)

/-- C9: on a pure digit string whose value exceeds the `int` maximum,
`isValidInteger` returns false (the `out_of_range` exception from
`stoi` is caught), so a lexically well-formed integer literal can still
be rejected; in particular "99999999999999" is rejected. -/
theorem claim_C9_overflow :
    (∀ s : String, (∀ c ∈ s.data, c.isDigit = true) →
      (2147483647 : Int) < (natOfDigits s.data : Int) → isValidInteger s = none) ∧
    isValidInteger "99999999999999" = none := by
  constructor
  · intro s hdig hbig
    cases hd : s.data with
    | nil =>
      rw [hd] at hbig
      norm_num [natOfDigits] at hbig
    | cons c t =>
      have hc : c.isDigit = true := hdig c (by rw [hd]; exact List.mem_cons_self c t)
      have hall : ∀ x ∈ c :: t, Char.isDigit x = true := by
        intro x hx
        exact hdig x (by rw [hd]; exact hx)
      have hsplit := takeWhile_split Char.isDigit (c :: t) [] hall (fun _ _ h2 => nomatch h2)
      rw [List.append_nil] at hsplit
      have hbig2 : (2147483647 : Int) < (natOfDigits (c :: t) : Int) := by
        rw [hd] at hbig
        exact hbig
      simp only [isValidInteger, hd]
      rw [List.dropWhile_cons_of_neg (by simp [digit_not_space c hc])]
      simp only [splitSign, if_neg (digit_ne_plus c hc), if_neg (digit_ne_minus c hc)]
      rw [hsplit.1]
      have hrange : intRangeOK ((natOfDigits (c :: t) : Int)) = false := by
        simp only [intRangeOK, Bool.and_eq_false_iff, decide_eq_false_iff_not, not_le]
        right
        exact hbig2
      rw [if_neg (by simp)]
      simp [hrange]
  · rfl

theorem claim_C9_witness : isValidInteger "99999999999999" = none :=
  claim_C9_overflow.1 "99999999999999" (by decide) (by decide)

/-- `isValidDecimal` succeeds exactly on the spec's lexical shape. -/
theorem isValidDecimal_shape_iff (s : String) :
    (isValidDecimal s).isSome = true ↔ specDecimalShape s := by
  constructor
  · intro h
    simp only [isValidDecimal] at h
    split at h
    · simp at h
    · rename_i hne
      split at h
      · rename_i hdrop
        left
        refine ⟨s.data.takeWhile Char.isDigit, ?_, ?_, ?_⟩
        · intro h2
          rw [h2] at hne
          simp at hne
        · exact fun c hc => List.mem_takeWhile_imp hc
        · conv_lhs => rw [← List.takeWhile_append_dropWhile (p := Char.isDigit) (l := s.data)]
          rw [hdrop, List.append_nil]
      · rename_i fs hdrop
        split at h
        · rename_i hcond
          right
          refine ⟨s.data.takeWhile Char.isDigit, fs, ?_, ?_, hcond.1, hcond.2.1, ?_, ?_⟩
          · intro h2
            rw [h2] at hne
            simp at hne
          · exact fun c hc => List.mem_takeWhile_imp hc
          · intro c hc
            have := hcond.2.2
            rw [List.all_eq_true] at this
            exact this c hc
          · conv_lhs => rw [← List.takeWhile_append_dropWhile (p := Char.isDigit) (l := s.data)]
            rw [hdrop]
        · simp at h
      · simp at h
  · intro hs
    rcases hs with ⟨ds, hne, hdig, heq⟩ | ⟨ds, fs, hne, hdig, hfne, hflen, hfdig, heq⟩
    · have hsp := takeWhile_split Char.isDigit ds [] hdig (fun _ _ h2 => nomatch h2)
      rw [List.append_nil] at hsp
      simp only [isValidDecimal, heq]
      rw [hsp.1, hsp.2]
      rw [if_neg (by simpa using hne)]
      simp
    · have hsp := takeWhile_split Char.isDigit ds ('.' :: fs) hdig
        (by
          intro c t h2
          obtain ⟨h3, -⟩ := List.cons.inj h2.symm
          rw [h3]
          decide)
      simp only [isValidDecimal, heq]
      rw [hsp.1, hsp.2]
      rw [if_neg (by simpa using hne)]
      show (if fs ≠ [] ∧ fs.length ≤ 2 ∧ fs.all Char.isDigit then
        some ((natOfDigits ds : ℚ) + (natOfDigits fs : ℚ) / 10 ^ fs.length) else none).isSome = true
      rw [if_pos ⟨hfne, hflen, by simpa [List.all_eq_true] using hfdig⟩]
      rfl

/-- C4: `parseDecimal` succeeds exactly on "one or more digits,
optionally followed by a decimal point and one or two digits" (no sign,
no exponent, no separators), and returns the denoted decimal value:
"12" gives 12, "12.5" gives 12.5, while "12.345", "abc" and "-1.5"
fail. -/
theorem claim_C4_decimal_lexical :
    (∀ s : String, (isValidDecimal s).isSome = true ↔ specDecimalShape s) ∧
    isValidDecimal "12" = some 12 ∧
    isValidDecimal "12.5" = some 12.5 ∧
    isValidDecimal "12.345" = none ∧
    isValidDecimal "abc" = none ∧
    isValidDecimal "-1.5" = none := by
  refine ⟨isValidDecimal_shape_iff, rfl, ?_, rfl, rfl, rfl⟩
  have h : isValidDecimal "12.5" = some (((12 : ℕ) : ℚ) + ((5 : ℕ) : ℚ) / 10 ^ (1 : ℕ)) := rfl
  rw [h]
  norm_num

/-- C3 counterexample: `stoi` skips leading whitespace, so
`isValidInteger " 12"` succeeds although `" 12"` is not "exactly an
optional sign followed by one or more digits with no other
characters". -/
theorem claim_C3_counterexample :
    (isValidInteger " 12").isSome = true ∧ specIntShape " 12" = false := by
  constructor <;> decide

/-- Unfolds `isValidInteger` once the sign split of the
whitespace-stripped input is known. -/
theorem isValidInteger_decompose (s : String) (sgn : Int) (cs2 : List Char)
    (h : splitSign (s.data.dropWhile isSpaceChar) = (sgn, cs2)) :
    isValidInteger s =
      if (cs2.takeWhile Char.isDigit).isEmpty then none
      else if ¬ intRangeOK (sgn * (natOfDigits (cs2.takeWhile Char.isDigit) : Int)) then none
      else if (cs2.dropWhile Char.isDigit).isEmpty then
        some (sgn * (natOfDigits (cs2.takeWhile Char.isDigit) : Int))
      else none := by
  simp only [isValidInteger, h]

/-- C3 (amended): `isValidInteger` succeeds iff the text is optional
leading C-locale whitespace, then an optional sign, then one or more
base-10 digits with no trailing characters, and the denoted value lies
in the signed 32-bit `int` range. -/
theorem claim_C3_amended_int (s : String) :
    (isValidInteger s).isSome = true ↔ amendedIntShape s := by
  constructor
  · intro h
    set ws := s.data.takeWhile isSpaceChar with hwdef
    have hws : ∀ c ∈ ws, isSpaceChar c = true :=
      fun c hc => List.mem_takeWhile_imp hc
    have hcat := List.takeWhile_append_dropWhile isSpaceChar s.data
    cases hcs : s.data.dropWhile isSpaceChar with
    | nil =>
      rw [isValidInteger_decompose s 1 [] (by rw [hcs]; rfl)] at h
      simp at h
    | cons c t =>
      rw [hcs] at hcat
      have heq2 : s.data = ws ++ c :: t := hcat.symm
      by_cases hplus : c = '+'
      · subst hplus
        rw [isValidInteger_decompose s 1 t (by rw [hcs]; rfl)] at h
        by_cases hde : (t.takeWhile Char.isDigit).isEmpty = true
        · rw [if_pos hde] at h
          simp at h
        · rw [if_neg hde] at h
          by_cases hrg : intRangeOK (1 * (natOfDigits (t.takeWhile Char.isDigit) : Int)) = true
          · rw [if_neg (not_not_intro hrg)] at h
            by_cases hrest : (t.dropWhile Char.isDigit).isEmpty = true
            · have hds := List.takeWhile_append_dropWhile Char.isDigit t
              rw [List.isEmpty_iff] at hrest
              rw [hrest, List.append_nil] at hds
              refine ⟨ws, ['+'], t.takeWhile Char.isDigit, hws, Or.inr (Or.inl rfl), ?_,
                fun c2 hc2 => List.mem_takeWhile_imp hc2, ?_, ?_⟩
              · intro h2
                rw [h2] at hde
                simp at hde
              · rw [heq2, hds, List.append_assoc]
                rfl
              · exact hrg
            · rw [if_neg hrest] at h
              simp at h
          · rw [if_pos hrg] at h
            simp at h
      · by_cases hminus : c = '-'
        · subst hminus
          rw [isValidInteger_decompose s (-1) t (by rw [hcs]; rfl)] at h
          by_cases hde : (t.takeWhile Char.isDigit).isEmpty = true
          · rw [if_pos hde] at h
            simp at h
          · rw [if_neg hde] at h
            by_cases hrg : intRangeOK (-1 * (natOfDigits (t.takeWhile Char.isDigit) : Int)) = true
            · rw [if_neg (not_not_intro hrg)] at h
              by_cases hrest : (t.dropWhile Char.isDigit).isEmpty = true
              · have hds := List.takeWhile_append_dropWhile Char.isDigit t
                rw [List.isEmpty_iff] at hrest
                rw [hrest, List.append_nil] at hds
                refine ⟨ws, ['-'], t.takeWhile Char.isDigit, hws, Or.inr (Or.inr rfl), ?_,
                  fun c2 hc2 => List.mem_takeWhile_imp hc2, ?_, ?_⟩
                · intro h2
                  rw [h2] at hde
                  simp at hde
                · rw [heq2, hds, List.append_assoc]
                  rfl
                · exact hrg
              · rw [if_neg hrest] at h
                simp at h
            · rw [if_pos hrg] at h
              simp at h
        · have hss : splitSign (s.data.dropWhile isSpaceChar) = (1, c :: t) := by
            rw [hcs]
            simp only [splitSign]
            rw [if_neg hplus, if_neg hminus]
          rw [isValidInteger_decompose s 1 (c :: t) hss] at h
          by_cases hde : ((c :: t).takeWhile Char.isDigit).isEmpty = true
          · rw [if_pos hde] at h
            simp at h
          · rw [if_neg hde] at h
            by_cases hrg :
                intRangeOK (1 * (natOfDigits ((c :: t).takeWhile Char.isDigit) : Int)) = true
            · rw [if_neg (not_not_intro hrg)] at h
              by_cases hrest : ((c :: t).dropWhile Char.isDigit).isEmpty = true
              · have hds := List.takeWhile_append_dropWhile Char.isDigit (c :: t)
                rw [List.isEmpty_iff] at hrest
                rw [hrest, List.append_nil] at hds
                refine ⟨ws, [], (c :: t).takeWhile Char.isDigit, hws, Or.inl rfl, ?_,
                  fun c2 hc2 => List.mem_takeWhile_imp hc2, ?_, ?_⟩
                · intro h2
                  rw [h2] at hde
                  simp at hde
                · rw [heq2, hds, List.append_assoc]
                  rfl
                · exact hrg
              · rw [if_neg hrest] at h
                simp at h
            · rw [if_pos hrg] at h
              simp at h
  · rintro ⟨ws, sgn, ds, hws, hsgn, hne, hdig, heq, hrange⟩
    have hhead : ∀ c t, sgn ++ ds = c :: t → isSpaceChar c = false := by
      intro c t h2
      rcases hsgn with rfl | rfl | rfl
      · rw [List.nil_append] at h2
        refine digit_not_space c (hdig c ?_)
        rw [h2]
        exact List.mem_cons_self c t
      · obtain ⟨h3, -⟩ := List.cons.inj h2
        rw [← h3]
        decide
      · obtain ⟨h3, -⟩ := List.cons.inj h2
        rw [← h3]
        decide
    have hsp := takeWhile_split isSpaceChar ws (sgn ++ ds) hws hhead
    have hdw : s.data.dropWhile isSpaceChar = sgn ++ ds := by
      rw [heq, List.append_assoc]
      exact hsp.2
    have hsp2 := takeWhile_split Char.isDigit ds [] hdig (fun _ _ h2 => nomatch h2)
    rw [List.append_nil] at hsp2
    have hemp : ¬ (ds.isEmpty = true) := fun hcon => hne (List.isEmpty_iff.mp hcon)
    rcases hsgn with rfl | rfl | rfl
    · cases hd2 : ds with
      | nil => exact absurd hd2 hne
      | cons d dt =>
        have hdd : d.isDigit = true := hdig d (by rw [hd2]; exact List.mem_cons_self d dt)
        have hss : splitSign (s.data.dropWhile isSpaceChar) = (1, ds) := by
          rw [hdw, List.nil_append, hd2]
          simp only [splitSign]
          rw [if_neg (digit_ne_plus d hdd), if_neg (digit_ne_minus d hdd)]
        rw [isValidInteger_decompose s 1 ds hss, hsp2.1, hsp2.2]
        rw [if_neg hemp,
          if_neg (not_not_intro (show intRangeOK (1 * (natOfDigits ds : Int)) = true from hrange))]
        rfl
    · have hss : splitSign (s.data.dropWhile isSpaceChar) = (1, ds) := by
        rw [hdw]
        rfl
      rw [isValidInteger_decompose s 1 ds hss, hsp2.1, hsp2.2]
      rw [if_neg hemp,
        if_neg (not_not_intro (show intRangeOK (1 * (natOfDigits ds : Int)) = true from hrange))]
      rfl
    · have hss : splitSign (s.data.dropWhile isSpaceChar) = (-1, ds) := by
        rw [hdw]
        rfl
      rw [isValidInteger_decompose s (-1) ds hss, hsp2.1, hsp2.2]
      rw [if_neg hemp,
        if_neg (not_not_intro (show intRangeOK (-1 * (natOfDigits ds : Int)) = true from hrange))]
      rfl

/-- C5 evidence: the menu validator accepts "+5" as the valid choice 5
(so the driver dispatches case 5 and prints the exit message), yet with
input "+5" the loop does NOT terminate — the guard compares the raw
string against "5" — while the plain "5" does terminate it; "6" and "0"
are rejected as menu choices and the loop continues past them. -/
theorem claim_C5_exit_divergence :
    isValidMenuNumber "+5" 1 5 = some 5 ∧
    mainLoop 1 [] ["+5"] = none ∧
    mainLoop 1 [] ["5"] = some [] ∧
    isValidMenuNumber "6" 1 5 = none ∧
    isValidMenuNumber "0" 1 5 = none ∧
    mainLoop 2 [] ["6", "5"] = some [] :=
  ⟨rfl, rfl, rfl, rfl, rfl, rfl⟩
